import Mathlib

/-!
Shallow embedding of the simd-erasure-core session layer:
the shard working store (`src/engine/shards.rs`), the encoder and decoder
work buffers (`src/rate/encoder_work.rs`, `src/rate/decoder_work.rs`) and
the result iterators (`src/encoder_result.rs`, `src/decoder_result.rs`).

Bytes are modelled as `Nat`; the flat `Vec<[u8; 64]>` backing store of
`Shards` is modelled as a function from flat byte addresses to byte values
together with the `shard_count` and `shard_len_64` fields.
-/

namespace ErasureCore

/-- Error kinds of the crate (`Error` enum), restricted to the variants the
session layer produces. -/
inductive Error where
  | TooManyOriginalShards (original_count : Nat)
  | TooFewOriginalShards (original_count original_received_count : Nat)
  | NotEnoughShards (original_count original_received_count recovery_received_count : Nat)
  | InvalidOriginalShardIndex (original_count index : Nat)
  | InvalidRecoveryShardIndex (recovery_count index : Nat)
  | DuplicateOriginalShardIndex (index : Nat)
  | DuplicateRecoveryShardIndex (index : Nat)
  | DifferentShardSize (shard_bytes got : Nat)
  deriving DecidableEq

/-- Model of `fixedbitset::FixedBitSet`: a length and a bit function.
Bits at or beyond `len` read as `false` via `contains`. -/
structure FixedBitSet where
  len : Nat
  bits : Nat → Bool

/-- `FixedBitSet::new` / `with_capacity(0)`: empty bitmap. -/
def FixedBitSet.new : FixedBitSet :=
  { len := 0, bits := fun _ => false }

/-- Indexing `received[pos]`: true iff the bit is within bounds and set. -/
def FixedBitSet.contains (b : FixedBitSet) (i : Nat) : Bool :=
  decide (i < b.len) && b.bits i

/-- `FixedBitSet::set(i, v)`. -/
def FixedBitSet.set (b : FixedBitSet) (i : Nat) (v : Bool) : FixedBitSet :=
  { b with bits := fun j => if j = i then v else b.bits j }

/-- `FixedBitSet::clear`: zero all bits, keep the length. -/
def FixedBitSet.clear (b : FixedBitSet) : FixedBitSet :=
  { b with bits := fun _ => false }

/-- `FixedBitSet::grow(n)`: extend the length to `n` (never shrinks);
new bits are zero, existing bits are kept. -/
def FixedBitSet.grow (b : FixedBitSet) (n : Nat) : FixedBitSet :=
  { b with len := max b.len n }

/-- The shard working store (`Shards` in `src/engine/shards.rs`).
`data` is the flat byte view of the `Vec<[u8; 64]>`: slot `pos` occupies
byte addresses `[pos * shard_len_64 * 64, (pos + 1) * shard_len_64 * 64)`. -/
structure Shards where
  shard_count : Nat
  shard_len_64 : Nat
  data : Nat → Nat

/-- `Shards::new`. -/
def Shards.new : Shards :=
  { shard_count := 0, shard_len_64 := 0, data := fun _ => 0 }

/-- `Shards::resize(shard_count, shard_len_64)`: `Vec::resize` keeps the
first `min(old, new)` chunks and fills any new chunks with zeroes. -/
def Shards.resize (s : Shards) (shard_count shard_len_64 : Nat) : Shards :=
  { shard_count := shard_count
    shard_len_64 := shard_len_64
    data := fun a =>
      if a < (min (s.shard_count * s.shard_len_64) (shard_count * shard_len_64)) * 64 then
        s.data a
      else 0 }

/-- `Shards::insert(index, shard)`: copy the whole 64-byte chunks of
`shard` verbatim; if `shard.len() % 64 ≠ 0`, split the tail into halves of
length `tail_len / 2`, the low half at offset 0 and the high half at
offset 32 of the last chunk. -/
def Shards.insert (s : Shards) (index : Nat) (shard : List Nat) : Shards :=
  let whole_chunk_count := shard.length / 64
  let tail_len := shard.length % 64
  let base := index * s.shard_len_64 * 64
  { s with data := fun a =>
      if base ≤ a ∧ a < base + whole_chunk_count * 64 then
        shard.getD (a - base) 0
      else if 0 < tail_len ∧ base + whole_chunk_count * 64 ≤ a ∧
          a < base + whole_chunk_count * 64 + tail_len / 2 then
        shard.getD (a - base) 0
      else if 0 < tail_len ∧ base + whole_chunk_count * 64 + 32 ≤ a ∧
          a < base + whole_chunk_count * 64 + 32 + (tail_len - tail_len / 2) then
        shard.getD (a - base - 32 + tail_len / 2) 0
      else s.data a }

/-- `Shards::undo_last_chunk_encoding(shard_bytes, lo..hi)`: for each slot
in the range, `last_chunk.copy_within(32..32 + tail_len / 2, tail_len / 2)`;
a no-op when `shard_bytes % 64 == 0`. -/
def Shards.undo_last_chunk_encoding (s : Shards) (shard_bytes lo hi : Nat) : Shards :=
  let whole_chunk_count := shard_bytes / 64
  let tail_len := shard_bytes % 64
  if tail_len = 0 then s
  else
    { s with data := fun a =>
        let idx := a / (s.shard_len_64 * 64)
        let o := a % (s.shard_len_64 * 64)
        if lo ≤ idx ∧ idx < hi ∧ whole_chunk_count * 64 + tail_len / 2 ≤ o ∧
            o < whole_chunk_count * 64 + tail_len then
          s.data (a + 32 - tail_len / 2)
        else s.data a }

/-- The first `n` bytes of the flattened chunks of slot `pos`
(`self.shards[pos].as_flattened()[..n]`). -/
def Shards.readBytes (s : Shards) (pos n : Nat) : List Nat :=
  (List.range n).map (fun i => s.data (pos * s.shard_len_64 * 64 + i))

/-- The encoder work buffer (`EncoderWork` in `src/rate/encoder_work.rs`). -/
structure EncoderWork where
  original_count : Nat
  recovery_count : Nat
  shard_bytes : Nat
  original_received_count : Nat
  shards : Shards

/-- `EncoderWork::new`. -/
def EncoderWork.new : EncoderWork :=
  { original_count := 0, recovery_count := 0, shard_bytes := 0
    original_received_count := 0, shards := Shards.new }

/-- `EncoderWork::add_original_shard`, returning the updated buffer and
`some` error when the call fails. The success branch inserts at slot
`original_received_count` and increments the counter. -/
def EncoderWork.add_original_shard (w : EncoderWork) (original_shard : List Nat) :
    EncoderWork × Option Error :=
  if w.original_received_count = w.original_count then
    (w, some (.TooManyOriginalShards w.original_count))
  else if original_shard.length ≠ w.shard_bytes then
    (w, some (.DifferentShardSize w.shard_bytes original_shard.length))
  else
    ({ w with
        shards := w.shards.insert w.original_received_count original_shard
        original_received_count := w.original_received_count + 1 },
      none)

/-- `EncoderWork::encode_begin`: `Ok((work, K, M))` when all `K` originals
were received, `TooFewOriginalShards` otherwise. -/
def EncoderWork.encode_begin (w : EncoderWork) : Except Error (Nat × Nat) :=
  if w.original_received_count = w.original_count then
    .ok (w.original_count, w.recovery_count)
  else
    .error (.TooFewOriginalShards w.original_count w.original_received_count)

/-- `EncoderWork::recovery(index)`: the first `shard_bytes` bytes of the
flattened slot `index` for `index < recovery_count`, `None` otherwise. -/
def EncoderWork.recovery (w : EncoderWork) (index : Nat) : Option (List Nat) :=
  if index < w.recovery_count then
    some (w.shards.readBytes index w.shard_bytes)
  else none

/-- `EncoderWork::reset(original_count, recovery_count, shard_bytes, work_count)`. -/
def EncoderWork.reset (w : EncoderWork)
    (original_count recovery_count shard_bytes work_count : Nat) : EncoderWork :=
  { original_count := original_count
    recovery_count := recovery_count
    shard_bytes := shard_bytes
    original_received_count := 0
    shards := w.shards.resize work_count ((shard_bytes + 63) / 64) }

/-- `EncoderWork::reset_received`. -/
def EncoderWork.reset_received (w : EncoderWork) : EncoderWork :=
  { w with original_received_count := 0 }

/-- Body of `impl Drop for EncoderResult`: `self.work.reset_received()`. -/
def encoderResultDrop (w : EncoderWork) : EncoderWork :=
  w.reset_received

/-- The decoder work buffer (`DecoderWork` in `src/rate/decoder_work.rs`). -/
structure DecoderWork where
  original_count : Nat
  recovery_count : Nat
  shard_bytes : Nat
  original_base_pos : Nat
  recovery_base_pos : Nat
  original_received_count : Nat
  recovery_received_count : Nat
  received : FixedBitSet
  shards : Shards

/-- `DecoderWork::new`. -/
def DecoderWork.new : DecoderWork :=
  { original_count := 0, recovery_count := 0, shard_bytes := 0
    original_base_pos := 0, recovery_base_pos := 0
    original_received_count := 0, recovery_received_count := 0
    received := FixedBitSet.new, shards := Shards.new }

/-- `DecoderWork::add_original_shard(index, shard)`: validations in source
order, then insert at `original_base_pos + index`, bump the original
counter and set the received bit. -/
def DecoderWork.add_original_shard (w : DecoderWork) (index : Nat)
    (original_shard : List Nat) : DecoderWork × Option Error :=
  let pos := w.original_base_pos + index
  if w.original_count ≤ index then
    (w, some (.InvalidOriginalShardIndex w.original_count index))
  else if w.received.contains pos then
    (w, some (.DuplicateOriginalShardIndex index))
  else if original_shard.length ≠ w.shard_bytes then
    (w, some (.DifferentShardSize w.shard_bytes original_shard.length))
  else
    ({ w with
        shards := w.shards.insert pos original_shard
        original_received_count := w.original_received_count + 1
        received := w.received.set pos true },
      none)

/-- `DecoderWork::add_recovery_shard(index, shard)`. -/
def DecoderWork.add_recovery_shard (w : DecoderWork) (index : Nat)
    (recovery_shard : List Nat) : DecoderWork × Option Error :=
  let pos := w.recovery_base_pos + index
  if w.recovery_count ≤ index then
    (w, some (.InvalidRecoveryShardIndex w.recovery_count index))
  else if w.received.contains pos then
    (w, some (.DuplicateRecoveryShardIndex index))
  else if recovery_shard.length ≠ w.shard_bytes then
    (w, some (.DifferentShardSize w.shard_bytes recovery_shard.length))
  else
    ({ w with
        shards := w.shards.insert pos recovery_shard
        recovery_received_count := w.recovery_received_count + 1
        received := w.received.set pos true },
      none)

/-- `DecoderWork::decode_begin`: `NotEnoughShards` when the received total
is below `original_count`; `Ok(None)` when every original was received;
otherwise `Ok(Some(work))`, modelled by the `(K, M)` pair handed to the
rate layer. -/
def DecoderWork.decode_begin (w : DecoderWork) : Except Error (Option (Nat × Nat)) :=
  if w.original_received_count + w.recovery_received_count < w.original_count then
    .error (.NotEnoughShards w.original_count w.original_received_count
      w.recovery_received_count)
  else if w.original_received_count = w.original_count then
    .ok none
  else
    .ok (some (w.original_count, w.recovery_count))

/-- `DecoderWork::reset(...)`: set the configuration, zero the counters,
clear the bitmap and grow it to `max(original_base_pos + K, recovery_base_pos + M)`
only when it is currently shorter, and resize the store. -/
def DecoderWork.reset (w : DecoderWork)
    (original_count recovery_count shard_bytes
     original_base_pos recovery_base_pos work_count : Nat) : DecoderWork :=
  let max_received_pos :=
    max (original_base_pos + original_count) (recovery_base_pos + recovery_count)
  let cleared := w.received.clear
  { original_count := original_count
    recovery_count := recovery_count
    shard_bytes := shard_bytes
    original_base_pos := original_base_pos
    recovery_base_pos := recovery_base_pos
    original_received_count := 0
    recovery_received_count := 0
    received := if cleared.len < max_received_pos then cleared.grow max_received_pos else cleared
    shards := w.shards.resize work_count ((shard_bytes + 63) / 64) }

/-- `DecoderWork::reset_received`. -/
def DecoderWork.reset_received (w : DecoderWork) : DecoderWork :=
  { w with
      original_received_count := 0
      recovery_received_count := 0
      received := w.received.clear }

/-- Body of `impl Drop for DecoderResult`: `self.work.reset_received()`. -/
def decoderResultDrop (w : DecoderWork) : DecoderWork :=
  w.reset_received

/-- `DecoderWork::restored_original(index)`: the restored bytes when
`index < original_count` and slot `original_base_pos + index` was not
received, `None` otherwise. -/
def DecoderWork.restored_original (w : DecoderWork) (index : Nat) : Option (List Nat) :=
  let pos := w.original_base_pos + index
  if index < w.original_count ∧ w.received.contains pos = false then
    some (w.shards.readBytes pos w.shard_bytes)
  else none

/-- `DecoderWork::missing_original_count`. -/
def DecoderWork.missing_original_count (w : DecoderWork) : Nat :=
  w.original_count - w.original_received_count

/-- State of the `Recovery` iterator (`src/encoder_result.rs`); the
borrowed `work` is passed explicitly to `next`. -/
structure Recovery where
  ended : Bool
  next_index : Nat

/-- `Recovery::new(work)`. -/
def Recovery.new : Recovery :=
  { ended := false, next_index := 0 }

/-- `Recovery::next`: the yielded item and the successor state. -/
def Recovery.next (w : EncoderWork) (it : Recovery) : Option (List Nat) × Recovery :=
  if it.ended then (none, it)
  else
    match w.recovery it.next_index with
    | some nxt => (some nxt, { it with next_index := it.next_index + 1 })
    | none => (none, { it with ended := true })

/-- `Recovery::size_hint().0` (= `len()` via `ExactSizeIterator`). -/
def Recovery.length (w : EncoderWork) (it : Recovery) : Nat :=
  w.recovery_count - it.next_index

/-- The iterator state after `n` calls to `Recovery::next` starting from
`Recovery::new`. -/
def Recovery.stepN (w : EncoderWork) : Nat → Recovery
  | 0 => Recovery.new
  | n + 1 => (Recovery.next w (Recovery.stepN w n)).2

/-- The list of the first `n` items yielded by `Recovery::next` from
state `it`. -/
def Recovery.outputs (w : EncoderWork) (it : Recovery) : Nat → List (Option (List Nat))
  | 0 => []
  | n + 1 =>
    (Recovery.next w it).1 :: Recovery.outputs w (Recovery.next w it).2 n

/-- State of the `RestoredOriginal` iterator (`src/decoder_result.rs`). -/
structure RestoredOriginal where
  remaining : Nat
  next_index : Nat

/-- `RestoredOriginal::new(work)`: `remaining = work.missing_original_count()`. -/
def RestoredOriginal.new (w : DecoderWork) : RestoredOriginal :=
  { remaining := w.missing_original_count, next_index := 0 }

/-- Structural helper for the `while index < original_count` scan inside
`RestoredOriginal::next`: `fuel` is the number of loop iterations left,
`original_count - index`. -/
def DecoderWork.scanAux (w : DecoderWork) : Nat → Nat → Option (Nat × List Nat)
  | 0, _ => none
  | fuel + 1, index =>
    match w.restored_original index with
    | some original => some (index, original)
    | none => w.scanAux fuel (index + 1)

/-- The `while index < original_count` scan inside `RestoredOriginal::next`:
first index at or after `index` whose `restored_original` is `Some`,
with its bytes. -/
def DecoderWork.scanRestored (w : DecoderWork) (index : Nat) : Option (Nat × List Nat) :=
  w.scanAux (w.original_count - index) index

/-- Outcome of one `RestoredOriginal::next` call. `exhausted` is the
`remaining == 0` return, `found` the in-loop return (carrying the
successor state), and `inconsistent` the debug-assert fallthrough after
the loop. -/
inductive NextOutcome where
  | exhausted
  | found (index : Nat) (original : List Nat) (it : RestoredOriginal)
  | inconsistent

/-- `RestoredOriginal::next`. -/
def RestoredOriginal.next (w : DecoderWork) (it : RestoredOriginal) : NextOutcome :=
  if it.remaining = 0 then .exhausted
  else
    match w.scanRestored it.next_index with
    | some (index, original) =>
      .found index original { remaining := it.remaining - 1, next_index := index + 1 }
    | none => .inconsistent

/-- `RestoredOriginal::size_hint().0` (= `len()`). -/
def RestoredOriginal.length (it : RestoredOriginal) : Nat :=
  it.remaining

/-- The iterator state after `n` calls to `RestoredOriginal::next` from
`RestoredOriginal::new`; the `exhausted` and `inconsistent` returns leave
the state unchanged, as in the source. -/
def RestoredOriginal.stepN (w : DecoderWork) : Nat → RestoredOriginal
  | 0 => RestoredOriginal.new w
  | n + 1 =>
    match RestoredOriginal.next w (RestoredOriginal.stepN w n) with
    | .found _ _ it => it
    | _ => RestoredOriginal.stepN w n

/-- Structural helper counting restorable indices, with the same fuel
convention as `scanAux`. -/
def DecoderWork.restorableAux (w : DecoderWork) : Nat → Nat → Nat
  | 0, _ => 0
  | fuel + 1, index =>
    (if (w.restored_original index).isSome then 1 else 0) +
      w.restorableAux fuel (index + 1)

/-- Number of indices in `[index, original_count)` whose
`restored_original` is `Some`. -/
def DecoderWork.restorableFrom (w : DecoderWork) (index : Nat) : Nat :=
  w.restorableAux (w.original_count - index) index

/-- C1: `decode_begin` returns `NotEnoughShards` iff
`original_received_count + recovery_received_count < original_count`;
returns `Ok(None)` when every original was received; otherwise returns the
work reference for decoding. -/
theorem decode_begin_trichotomy (w : DecoderWork) :
    (w.decode_begin = .error (.NotEnoughShards w.original_count
        w.original_received_count w.recovery_received_count) ↔
      w.original_received_count + w.recovery_received_count < w.original_count) ∧
    (w.original_received_count = w.original_count → w.decode_begin = .ok none) ∧
    (w.original_count ≤ w.original_received_count + w.recovery_received_count →
      w.original_received_count ≠ w.original_count →
      w.decode_begin = .ok (some (w.original_count, w.recovery_count))) := by
  unfold DecoderWork.decode_begin
  refine ⟨?_, ?_, ?_⟩ <;> intros <;> split_ifs <;> simp_all <;> omega

/-- Witness for C1 at a concrete decoder work buffer. -/
theorem decode_begin_trichotomy_witness :
    (DecoderWork.new).decode_begin = .ok none :=
  (decode_begin_trichotomy DecoderWork.new).2.1 rfl

/-- C6: whenever `EncoderWork::add_original_shard`,
`DecoderWork::add_original_shard` or `DecoderWork::add_recovery_shard`
returns an error, the whole work-buffer state — counts, bitmap and shard
store — is unchanged. -/
theorem add_shard_error_leaves_state (we : EncoderWork) (wd : DecoderWork)
    (i j : Nat) (s t u : List Nat) :
    ((we.add_original_shard s).2.isSome = true → (we.add_original_shard s).1 = we) ∧
    ((wd.add_original_shard i t).2.isSome = true → (wd.add_original_shard i t).1 = wd) ∧
    ((wd.add_recovery_shard j u).2.isSome = true → (wd.add_recovery_shard j u).1 = wd) := by
  unfold EncoderWork.add_original_shard DecoderWork.add_original_shard
    DecoderWork.add_recovery_shard
  refine ⟨?_, ?_, ?_⟩ <;> split_ifs <;> (try simp) <;> split_ifs <;> simp

/-- Witness for C6 at concrete failing calls (fresh buffers reject every
shard). -/
theorem add_shard_error_leaves_state_witness :
    (EncoderWork.new.add_original_shard [1]).1 = EncoderWork.new ∧
    (DecoderWork.new.add_original_shard 0 [1]).1 = DecoderWork.new ∧
    (DecoderWork.new.add_recovery_shard 0 [1]).1 = DecoderWork.new :=
  ⟨(add_shard_error_leaves_state EncoderWork.new DecoderWork.new 0 0 [1] [1] [1]).1 rfl,
   (add_shard_error_leaves_state EncoderWork.new DecoderWork.new 0 0 [1] [1] [1]).2.1 rfl,
   (add_shard_error_leaves_state EncoderWork.new DecoderWork.new 0 0 [1] [1] [1]).2.2 rfl⟩

/-- C7: dropping an `EncoderResult` zeroes `original_received_count`;
dropping a `DecoderResult` zeroes both received counts and clears every
bit of the received bitmap; configuration, base positions and the shard
store are unchanged by either drop. -/
theorem drop_resets_received_only (we : EncoderWork) (wd : DecoderWork) :
    ((encoderResultDrop we).original_received_count = 0 ∧
     (encoderResultDrop we).original_count = we.original_count ∧
     (encoderResultDrop we).recovery_count = we.recovery_count ∧
     (encoderResultDrop we).shard_bytes = we.shard_bytes ∧
     (encoderResultDrop we).shards = we.shards) ∧
    ((decoderResultDrop wd).original_received_count = 0 ∧
     (decoderResultDrop wd).recovery_received_count = 0 ∧
     (∀ p, (decoderResultDrop wd).received.contains p = false) ∧
     (decoderResultDrop wd).original_count = wd.original_count ∧
     (decoderResultDrop wd).recovery_count = wd.recovery_count ∧
     (decoderResultDrop wd).shard_bytes = wd.shard_bytes ∧
     (decoderResultDrop wd).original_base_pos = wd.original_base_pos ∧
     (decoderResultDrop wd).recovery_base_pos = wd.recovery_base_pos ∧
     (decoderResultDrop wd).shards = wd.shards) := by
  refine ⟨⟨rfl, rfl, rfl, rfl, rfl⟩, rfl, rfl, ?_, rfl, rfl, rfl, rfl, rfl, rfl⟩
  intro p
  simp [decoderResultDrop, DecoderWork.reset_received, FixedBitSet.clear,
    FixedBitSet.contains]

/-- Witness for C7 at concrete work buffers. -/
theorem drop_resets_received_only_witness :
    (encoderResultDrop EncoderWork.new).original_received_count = 0 ∧
    (decoderResultDrop DecoderWork.new).received.contains 5 = false :=
  ⟨(drop_resets_received_only EncoderWork.new DecoderWork.new).1.1,
   (drop_resets_received_only EncoderWork.new DecoderWork.new).2.2.2.1 5⟩

lemma Shards.readBytes_length (s : Shards) (pos n : Nat) :
    (s.readBytes pos n).length = n := by
  simp [Shards.readBytes]

lemma EncoderWork.recovery_eq_some (w : EncoderWork) (i : Nat)
    (h : i < w.recovery_count) :
    w.recovery i = some (w.shards.readBytes i w.shard_bytes) := by
  simp [EncoderWork.recovery, h]

lemma EncoderWork.recovery_eq_none (w : EncoderWork) (i : Nat)
    (h : w.recovery_count ≤ i) :
    w.recovery i = none := by
  simp [EncoderWork.recovery]
  omega

lemma Recovery.next_not_ended (w : EncoderWork) (j : Nat) (h : j < w.recovery_count) :
    Recovery.next w { ended := false, next_index := j } =
      (some (w.shards.readBytes j w.shard_bytes),
        { ended := false, next_index := j + 1 }) := by
  simp [Recovery.next, EncoderWork.recovery_eq_some w j h]

lemma Recovery.next_at_end (w : EncoderWork) (j : Nat) (h : w.recovery_count ≤ j) :
    Recovery.next w { ended := false, next_index := j } =
      (none, { ended := true, next_index := j }) := by
  simp [Recovery.next, EncoderWork.recovery_eq_none w j h]

lemma Recovery.outputs_tail (w : EncoderWork) (k : Nat) :
    ∀ j, j + k = w.recovery_count →
      Recovery.outputs w { ended := false, next_index := j } (k + 1) =
        (List.range' j k).map (fun i => w.recovery i) ++ [none] := by
  induction k with
  | zero =>
    intro j hj
    rw [Recovery.outputs, Recovery.outputs, Recovery.next_at_end w j (by omega)]
    simp
  | succ k ih =>
    intro j hj
    have hj' : j < w.recovery_count := by omega
    rw [Recovery.outputs, Recovery.next_not_ended w j hj']
    dsimp only
    rw [ih (j + 1) (by omega), List.range'_succ]
    simp [EncoderWork.recovery_eq_some w j hj']

lemma Recovery.stepN_eq (w : EncoderWork) (n : Nat) :
    Recovery.stepN w n =
      if n ≤ w.recovery_count then { ended := false, next_index := n }
      else { ended := true, next_index := w.recovery_count } := by
  induction n with
  | zero => simp [Recovery.stepN, Recovery.new]
  | succ n ih =>
    rw [Recovery.stepN, ih]
    rcases Nat.lt_trichotomy n w.recovery_count with h | h | h
    · rw [if_pos (by omega), if_pos (by omega), Recovery.next_not_ended w n h]
    · rw [if_pos (by omega), if_neg (by omega), Recovery.next_at_end w n (by omega), h]
    · rw [if_neg (by omega), if_neg (by omega)]
      simp [Recovery.next]

/-- C3: `recovery(i)` is `Some` of length exactly `shard_bytes` for
`i < recovery_count` and `None` for `i ≥ recovery_count`, and the
`Recovery` iterator yields exactly `recovery(0), …, recovery(M-1)` in
index order followed by `None`. -/
theorem encoder_recovery_complete (w : EncoderWork) :
    (∀ i, i < w.recovery_count →
      ∃ bytes, w.recovery i = some bytes ∧ bytes.length = w.shard_bytes) ∧
    (∀ i, w.recovery_count ≤ i → w.recovery i = none) ∧
    Recovery.outputs w Recovery.new (w.recovery_count + 1) =
      (List.range w.recovery_count).map (fun i => w.recovery i) ++ [none] := by
  refine ⟨?_, ?_, ?_⟩
  · intro i hi
    exact ⟨w.shards.readBytes i w.shard_bytes,
      EncoderWork.recovery_eq_some w i hi, Shards.readBytes_length _ _ _⟩
  · intro i hi
    exact EncoderWork.recovery_eq_none w i hi
  · have h := Recovery.outputs_tail w w.recovery_count 0 (by omega)
    rw [List.range_eq_range']
    exact h

/-- Witness for C3 at a concrete encoder buffer with `M = 3`, `S = 2`. -/
theorem encoder_recovery_complete_witness :
    ∃ bytes, (EncoderWork.new.reset 1 3 2 4).recovery 0 = some bytes ∧
      bytes.length = (EncoderWork.new.reset 1 3 2 4).shard_bytes :=
  (encoder_recovery_complete (EncoderWork.new.reset 1 3 2 4)).1 0 (by decide)

/-- C5: the recovery iterator's length is `recovery_count` at construction
and decreases by exactly one per `next()` call until it reaches zero, where
it stays (truncated subtraction); the restored-original iterator's length
at construction is `original_count − original_received_count`. -/
theorem iterator_length_law (w : EncoderWork) (wd : DecoderWork) (n : Nat) :
    Recovery.length w (Recovery.stepN w 0) = w.recovery_count ∧
    Recovery.length w (Recovery.stepN w (n + 1)) =
      Recovery.length w (Recovery.stepN w n) - 1 ∧
    (RestoredOriginal.new wd).length =
      wd.original_count - wd.original_received_count := by
  refine ⟨?_, ?_, rfl⟩
  · simp [Recovery.stepN, Recovery.new, Recovery.length]
  · rw [Recovery.stepN_eq, Recovery.stepN_eq]
    rcases Nat.lt_trichotomy n w.recovery_count with h | h | h
    · rw [if_pos (by omega), if_pos (by omega)]
      simp only [Recovery.length]
      omega
    · rw [if_neg (by omega), if_pos (by omega)]
      simp only [Recovery.length]
      omega
    · rw [if_neg (by omega), if_neg (by omega)]
      simp only [Recovery.length]
      omega

/-- Witness for C5 at concrete buffers (`M = 3`; one `next()` call). -/
theorem iterator_length_law_witness :
    Recovery.length (EncoderWork.new.reset 1 3 2 4)
        (Recovery.stepN (EncoderWork.new.reset 1 3 2 4) 1) =
      Recovery.length (EncoderWork.new.reset 1 3 2 4)
        (Recovery.stepN (EncoderWork.new.reset 1 3 2 4) 0) - 1 :=
  (iterator_length_law (EncoderWork.new.reset 1 3 2 4) DecoderWork.new 0).2.1

/-- C8 counterexample: in a session with `K = 1`, `M = 1` (`M_round = 1`),
the first `add_original_shard` call leaves slot `M_round + 0 = 1` all
zero and puts the shard in slot `0`, contradicting the claim that it is
inserted at slot `M_round + i`. -/
theorem encoder_add_slot_counterexample :
    (((EncoderWork.new.reset 1 1 64 2).add_original_shard
          (List.replicate 64 7)).1.shards.readBytes 1 64 ≠ List.replicate 64 7) ∧
    (((EncoderWork.new.reset 1 1 64 2).add_original_shard
          (List.replicate 64 7)).1.shards.readBytes 0 64 = List.replicate 64 7) := by
  decide

/-- C8 amended: a successful `EncoderWork::add_original_shard` call inserts
the shard into slot `original_received_count` (the 0-based arrival index),
so after all `K` originals the inputs occupy slots `[0, K)`. -/
theorem encoder_add_inserts_at_received_count (w : EncoderWork) (shard : List Nat)
    (h1 : w.original_received_count ≠ w.original_count)
    (h2 : shard.length = w.shard_bytes) :
    (w.add_original_shard shard).1.shards =
      w.shards.insert w.original_received_count shard ∧
    (w.add_original_shard shard).1.original_received_count =
      w.original_received_count + 1 ∧
    (w.add_original_shard shard).2 = none := by
  unfold EncoderWork.add_original_shard
  split_ifs <;> simp_all

/-- Witness for the amended C8 at a concrete session. -/
theorem encoder_add_inserts_at_received_count_witness :
    ((EncoderWork.new.reset 1 1 64 2).add_original_shard
        (List.replicate 64 7)).1.shards =
      (EncoderWork.new.reset 1 1 64 2).shards.insert 0 (List.replicate 64 7) :=
  (encoder_add_inserts_at_received_count (EncoderWork.new.reset 1 1 64 2)
    (List.replicate 64 7) (by decide) (by decide)).1

/-- C9 counterexample: reset a decoder work buffer for a session needing
bitmap length 2, then reset it for a session whose claimed size is
`max(0 + 1, 0 + 1) = 1`; the bitmap keeps length 2. -/
theorem decoder_reset_bitmap_counterexample :
    ((DecoderWork.new.reset 1 1 2 1 0 2).reset 1 1 2 0 0 2).received.len ≠
      max (0 + 1) (0 + 1) := by
  decide

/-- C9 amended: after `reset`, the received bitmap's length is the maximum
of its previous length and `max(original_base_pos + K, recovery_base_pos + M)`
(it grows monotonically and never shrinks), and every bit is clear — it
records exactly the (empty) set of positions holding valid received data. -/
theorem decoder_reset_bitmap (w : DecoderWork) (K M S obp rbp wc : Nat) :
    ((w.reset K M S obp rbp wc).received.len =
      max w.received.len (max (obp + K) (rbp + M))) ∧
    (∀ p, (w.reset K M S obp rbp wc).received.contains p = false) := by
  constructor
  · simp only [DecoderWork.reset, FixedBitSet.clear, FixedBitSet.grow]
    split_ifs <;> simp <;> omega
  · intro p
    simp only [DecoderWork.reset, FixedBitSet.clear, FixedBitSet.grow,
      FixedBitSet.contains]
    split_ifs <;> simp

/-- Witness for the amended C9 at a concrete reset. -/
theorem decoder_reset_bitmap_witness :
    ((DecoderWork.new.reset 1 1 2 1 0 2).received.len =
      max (DecoderWork.new.received.len) (max (1 + 1) (0 + 1))) ∧
    (DecoderWork.new.reset 1 1 2 1 0 2).received.contains 0 = false :=
  ⟨(decoder_reset_bitmap DecoderWork.new 1 1 2 1 0 2).1,
   (decoder_reset_bitmap DecoderWork.new 1 1 2 1 0 2).2 0⟩

lemma DecoderWork.scanRestored_stop (w : DecoderWork) (idx : Nat)
    (h : w.original_count ≤ idx) : w.scanRestored idx = none := by
  unfold DecoderWork.scanRestored
  rw [show w.original_count - idx = 0 by omega]
  rfl

lemma DecoderWork.scanRestored_step (w : DecoderWork) (idx : Nat)
    (h : idx < w.original_count) :
    w.scanRestored idx =
      match w.restored_original idx with
      | some original => some (idx, original)
      | none => w.scanRestored (idx + 1) := by
  unfold DecoderWork.scanRestored
  rw [show w.original_count - idx = (w.original_count - (idx + 1)) + 1 by omega]
  rfl

lemma DecoderWork.restorableFrom_stop (w : DecoderWork) (idx : Nat)
    (h : w.original_count ≤ idx) : w.restorableFrom idx = 0 := by
  unfold DecoderWork.restorableFrom
  rw [show w.original_count - idx = 0 by omega]
  rfl

lemma DecoderWork.restorableFrom_step (w : DecoderWork) (idx : Nat)
    (h : idx < w.original_count) :
    w.restorableFrom idx =
      (if (w.restored_original idx).isSome then 1 else 0) +
        w.restorableFrom (idx + 1) := by
  unfold DecoderWork.restorableFrom
  rw [show w.original_count - idx = (w.original_count - (idx + 1)) + 1 by omega]
  rfl

lemma DecoderWork.scan_count (w : DecoderWork) (k : Nat) :
    ∀ idx, w.original_count - idx ≤ k →
      (∀ j o, w.scanRestored idx = some (j, o) →
        w.restorableFrom idx = w.restorableFrom (j + 1) + 1) ∧
      (w.scanRestored idx = none → w.restorableFrom idx = 0) := by
  induction k with
  | zero =>
    intro idx h
    have h1 : w.original_count ≤ idx := by omega
    refine ⟨?_, ?_⟩
    · intro j o hscan
      rw [DecoderWork.scanRestored_stop w idx h1] at hscan
      exact absurd hscan (by simp)
    · intro _
      exact DecoderWork.restorableFrom_stop w idx h1
  | succ k ih =>
    intro idx h
    by_cases hidx : idx < w.original_count
    · rw [DecoderWork.scanRestored_step w idx hidx]
      cases hres : w.restored_original idx with
      | some original =>
        refine ⟨?_, ?_⟩
        · intro j o hscan
          simp only at hscan
          obtain ⟨hj, _⟩ := Prod.mk.injEq .. ▸ Option.some.injEq .. ▸ hscan
          rw [DecoderWork.restorableFrom_step w idx hidx, hres]
          simp only [Option.isSome_some, if_pos]
          cases hscan
          omega
        · intro hscan
          simp at hscan
      | none =>
        refine ⟨?_, ?_⟩
        · intro j o hscan
          simp only at hscan
          have h2 := (ih (idx + 1) (by omega)).1 j o hscan
          rw [DecoderWork.restorableFrom_step w idx hidx, hres]
          simp only [Option.isSome_none, Bool.false_eq_true, if_false]
          omega
        · intro hscan
          simp only at hscan
          have h2 := (ih (idx + 1) (by omega)).2 hscan
          rw [DecoderWork.restorableFrom_step w idx hidx, hres]
          simp only [Option.isSome_none, Bool.false_eq_true, if_false]
          omega
    · refine ⟨?_, ?_⟩
      · intro j o hscan
        rw [DecoderWork.scanRestored_stop w idx (by omega)] at hscan
        exact absurd hscan (by simp)
      · intro _
        exact DecoderWork.restorableFrom_stop w idx (by omega)

lemma RestoredOriginal.stepN_invariant (w : DecoderWork)
    (hcons : w.restorableFrom 0 = w.missing_original_count) (n : Nat) :
    (RestoredOriginal.stepN w n).remaining ≤
      w.restorableFrom (RestoredOriginal.stepN w n).next_index := by
  induction n with
  | zero =>
    simp only [RestoredOriginal.stepN, RestoredOriginal.new]
    omega
  | succ n ih =>
    rw [RestoredOriginal.stepN]
    rcases hrem : (RestoredOriginal.stepN w n).remaining with _ | r
    · rw [RestoredOriginal.next, if_pos hrem]
      exact ih
    · cases hscan : w.scanRestored (RestoredOriginal.stepN w n).next_index with
      | none =>
        have h0 := (DecoderWork.scan_count w
          (w.original_count - (RestoredOriginal.stepN w n).next_index)
          (RestoredOriginal.stepN w n).next_index le_rfl).2 hscan
        omega
      | some p =>
        obtain ⟨j, o⟩ := p
        have hcount := (DecoderWork.scan_count w
          (w.original_count - (RestoredOriginal.stepN w n).next_index)
          (RestoredOriginal.stepN w n).next_index le_rfl).1 j o hscan
        rw [RestoredOriginal.next, if_neg (by omega), hscan]
        simp only
        omega

/-- C10: starting from a `DecoderWork` whose restorable-index count equals
`missing_original_count`, no sequence of `RestoredOriginal::next` calls
ever reaches the debug-assert fallthrough (the `inconsistent` outcome):
whenever `remaining > 0`, the forward scan finds a restored shard. -/
theorem restored_iter_no_inconsistency (w : DecoderWork)
    (hcons : w.restorableFrom 0 = w.missing_original_count) (n : Nat) :
    RestoredOriginal.next w (RestoredOriginal.stepN w n) ≠ NextOutcome.inconsistent := by
  have hinv := RestoredOriginal.stepN_invariant w hcons n
  rw [RestoredOriginal.next]
  split_ifs with h
  · exact fun hh => NextOutcome.noConfusion hh
  · cases hscan : w.scanRestored (RestoredOriginal.stepN w n).next_index with
    | none =>
      exfalso
      have h0 := (DecoderWork.scan_count w
        (w.original_count - (RestoredOriginal.stepN w n).next_index)
        (RestoredOriginal.stepN w n).next_index le_rfl).2 hscan
      omega
    | some p =>
      obtain ⟨j, o⟩ := p
      exact fun hh => NextOutcome.noConfusion hh

lemma getD_congr_idx (l : List Nat) (x y : Nat) (h : x = y) :
    l.getD x 0 = l.getD y 0 := by
  rw [h]

lemma Shards.insert_shard_len (s : Shards) (pos : Nat) (shard : List Nat) :
    (s.insert pos shard).shard_len_64 = s.shard_len_64 := rfl

lemma Shards.undo_shard_len (s : Shards) (S lo hi : Nat) :
    (s.undo_last_chunk_encoding S lo hi).shard_len_64 = s.shard_len_64 := by
  unfold Shards.undo_last_chunk_encoding
  dsimp only
  split_ifs <;> rfl

/-- C4: `Shards::insert` copies the `⌊S/64⌋` whole chunks verbatim and, for
`S % 64 ≠ 0`, writes the low half of the tail (`tail_len / 2` bytes) at
offset 0 and the high half at offset 32 of the last chunk. -/
theorem insert_tail_layout (s : Shards) (pos : Nat) (shard : List Nat) (S : Nat)
    (hlen : shard.length = S) (heven : S % 2 = 0) (htail : S % 64 ≠ 0) :
    (∀ i, i < S / 64 * 64 →
      (s.insert pos shard).data (pos * s.shard_len_64 * 64 + i) = shard.getD i 0) ∧
    (∀ j, j < S % 64 / 2 →
      (s.insert pos shard).data (pos * s.shard_len_64 * 64 + S / 64 * 64 + j) =
        shard.getD (S / 64 * 64 + j) 0) ∧
    (∀ j, j < S % 64 / 2 →
      (s.insert pos shard).data (pos * s.shard_len_64 * 64 + S / 64 * 64 + 32 + j) =
        shard.getD (S / 64 * 64 + S % 64 / 2 + j) 0) := by
  subst hlen
  unfold Shards.insert
  have h2 : shard.length % 64 < 64 := Nat.mod_lt _ (by omega)
  have h3 : shard.length % 64 % 2 = 0 := by
    rw [Nat.mod_mod_of_dvd shard.length (by norm_num)]
    exact heven
  have h4 : shard.length / 64 * 64 + shard.length % 64 = shard.length :=
    Nat.div_add_mod' shard.length 64
  obtain ⟨W, hW⟩ : ∃ W, shard.length / 64 = W := ⟨_, rfl⟩
  obtain ⟨T, hT⟩ : ∃ T, shard.length % 64 = T := ⟨_, rfl⟩
  rw [hW] at h4 ⊢
  rw [hT] at h2 h3 h4 htail ⊢
  obtain ⟨B, hB⟩ : ∃ B, pos * s.shard_len_64 * 64 = B := ⟨_, rfl⟩
  rw [hB]
  have h5 : T - T / 2 = T / 2 := by omega
  refine ⟨?_, ?_, ?_⟩ <;> intro i hi <;> dsimp only <;> split_ifs <;>
    first
      | rfl
      | (exfalso; omega)
      | exact getD_congr_idx shard _ _ (by omega)

/-- Witness for C4: a two-byte shard (`S = 2`) in a one-chunk slot; its
tail low half lands at offset 0 of the last chunk. -/
theorem insert_tail_layout_witness :
    ((Shards.new.resize 1 1).insert 0 [2, 3]).data
        (0 * (Shards.new.resize 1 1).shard_len_64 * 64 + 2 / 64 * 64 + 0) =
      [2, 3].getD (2 / 64 * 64 + 0) 0 :=
  (insert_tail_layout (Shards.new.resize 1 1) 0 [2, 3] 2 rfl (by decide)
    (by decide)).2.1 0 (by decide)

lemma insert_undo_data (s : Shards) (pos lo hi : Nat) (shard : List Nat) (i : Nat)
    (heven : shard.length % 2 = 0) (hfit : shard.length ≤ 64 * s.shard_len_64)
    (hlo : lo ≤ pos) (hhi : pos < hi) (hil : i < shard.length) :
    ((s.insert pos shard).undo_last_chunk_encoding shard.length lo hi).data
        (pos * s.shard_len_64 * 64 + i) = shard.getD i 0 := by
  have h2 : shard.length % 64 < 64 := Nat.mod_lt _ (by omega)
  have h3 : shard.length % 64 % 2 = 0 := by
    rw [Nat.mod_mod_of_dvd shard.length (by norm_num)]
    exact heven
  have h4 : shard.length / 64 * 64 + shard.length % 64 = shard.length :=
    Nat.div_add_mod' shard.length 64
  have hL : 0 < s.shard_len_64 := by omega
  have hi64 : i < s.shard_len_64 * 64 := by omega
  have e1 : pos * s.shard_len_64 * 64 + i = (s.shard_len_64 * 64) * pos + i := by ring
  have hidx : (pos * s.shard_len_64 * 64 + i) / (s.shard_len_64 * 64) = pos := by
    rw [e1, Nat.mul_add_div (by omega), Nat.div_eq_of_lt hi64, Nat.add_zero]
  have hmod : (pos * s.shard_len_64 * 64 + i) % (s.shard_len_64 * 64) = i := by
    rw [e1, Nat.mul_add_mod, Nat.mod_eq_of_lt hi64]
  obtain ⟨W, hW⟩ : ∃ W, shard.length / 64 = W := ⟨_, rfl⟩
  obtain ⟨T, hT⟩ : ∃ T, shard.length % 64 = T := ⟨_, rfl⟩
  rw [hW] at h4
  rw [hT] at h2 h3 h4
  have h5 : T - T / 2 = T / 2 := by omega
  unfold Shards.undo_last_chunk_encoding Shards.insert
  dsimp only
  split_ifs with hT0 <;>
    dsimp only <;>
    simp only [hidx, hmod, hW, hT] <;>
    obtain ⟨B, hB⟩ : ∃ B, pos * s.shard_len_64 * 64 = B := ⟨_, rfl⟩ <;>
    rw [hB] <;>
    split_ifs <;>
      first
        | (exfalso; omega)
        | exact getD_congr_idx shard _ _ (by omega)

/-- C2: for an even-length shard fitting its slot,
`undo_last_chunk_encoding(S, lo..hi)` applied right after
`insert(pos, shard)` with `pos ∈ [lo, hi)` restores the first `S` bytes of
the flattened slot `pos` to the shard, and is a no-op when `S % 64 = 0`. -/
theorem insert_undo_roundtrip (s : Shards) (pos lo hi : Nat) (shard : List Nat)
    (S : Nat) (hlen : shard.length = S) (heven : S % 2 = 0)
    (hfit : S ≤ 64 * s.shard_len_64) (hlo : lo ≤ pos) (hhi : pos < hi) :
    ((s.insert pos shard).undo_last_chunk_encoding S lo hi).readBytes pos S = shard ∧
    (S % 64 = 0 →
      (s.insert pos shard).undo_last_chunk_encoding S lo hi = s.insert pos shard) := by
  subst hlen
  constructor
  · apply List.ext_getElem
    · simp [Shards.readBytes]
    · intro n h1 h2
      have hpt := insert_undo_data s pos lo hi shard n heven hfit hlo hhi h2
      simp only [Shards.readBytes, List.getElem_map, List.getElem_range,
        Shards.undo_shard_len, Shards.insert_shard_len]
      rw [hpt, List.getD_eq_getElem]
  · intro h64
    unfold Shards.undo_last_chunk_encoding
    dsimp only
    rw [if_pos h64]

/-- Witness for C2: inserting `[2, 3]` (`S = 2`) and undoing restores the
two bytes. -/
theorem insert_undo_roundtrip_witness :
    (((Shards.new.resize 1 1).insert 0 [2, 3]).undo_last_chunk_encoding 2 0 1).readBytes
        0 2 = [2, 3] :=
  (insert_undo_roundtrip (Shards.new.resize 1 1) 0 0 1 [2, 3] 2 rfl (by decide)
    (by decide) (by decide) (by decide)).1

/-- Witness for C10: a one-shard decoder session missing its only
original, at the first `next` call. -/
theorem restored_iter_no_inconsistency_witness :
    RestoredOriginal.next
        { original_count := 1, recovery_count := 1, shard_bytes := 2
          original_base_pos := 0, recovery_base_pos := 1
          original_received_count := 0, recovery_received_count := 1
          received := FixedBitSet.new.grow 2 |>.set 1 true
          shards := Shards.new.resize 2 1 }
        (RestoredOriginal.stepN
          { original_count := 1, recovery_count := 1, shard_bytes := 2
            original_base_pos := 0, recovery_base_pos := 1
            original_received_count := 0, recovery_received_count := 1
            received := FixedBitSet.new.grow 2 |>.set 1 true
            shards := Shards.new.resize 2 1 } 0) ≠ NextOutcome.inconsistent :=
  restored_iter_no_inconsistency _ (by rfl) 0

end ErasureCore
